import Mathlib

/-!
Verification development for the nullus task manager
(`src/nullus/todo.py`). The data model and every operation below are a
shallow embedding of that file: polars dataframes become lists of task
records, date cells become year-month-day records, the creation timestamp
becomes a year-month-day-time record, and the backing CSV file
becomes an optional stored list. Each operation follows the structure of
its Python source function and keeps its name.
-/

namespace Nullus

/-- Task status. The source declares the column as the polars enum
`Enum(["DONE", "TODO"])`, whose category order makes `DONE` the smaller
value and `TODO` the larger one. -/
inductive Status where
  | DONE
  | TODO
deriving DecidableEq

/-- A calendar date (a polars `Date` cell). On valid dates, chronological
order coincides with lexicographic order on (year, month, day). -/
structure Date where
  year : Nat
  month : Nat
  day : Nat
deriving DecidableEq

/-- A timestamp (a polars `Datetime` cell, microsecond precision), as
written by `datetime.now()` at task creation. -/
structure DateTime where
  date : Date
  hour : Nat
  minute : Nat
  second : Nat
  micro : Nat
deriving DecidableEq

/-- One task row, with the columns of `SCHEMA` in `todo.py`. -/
structure Task where
  id : Int
  status : Status
  desc : String
  scheduled : Option Date
  deadline : Option Date
  created : DateTime
  is_visible : Bool
  is_pin : Bool
  done_date : Option Date
deriving DecidableEq

/-- The backing CSV file; `none` models an absent file. -/
abbrev Store := Option (List Task)

/-- `load_tasks`: reading a missing (or empty) file is not an error and
yields the empty collection. -/
def load_tasks : Store → List Task
  | none => []
  | some ts => ts

/-- `save_tasks`: writing the collection back to the file. -/
def save_tasks (tasks : List Task) : Store :=
  some tasks

/-- Lexicographic comparison (less-or-equal) on lists of naturals, used to
model multi-column dataframe sorts. -/
def lexLE : List Nat → List Nat → Bool
  | [], _ => true
  | _ :: _, [] => false
  | a :: as, b :: bs => if a < b then true else if a = b then lexLE as bs else false

/-- Rank of a boolean column under a descending sort: `true` rows first. -/
def boolDescRank : Bool → Nat
  | true => 0
  | false => 1

/-- Rank of the status column under a descending sort. The enum category
order is `DONE < TODO`, so a descending sort puts `TODO` rows first. -/
def statusDescRank : Status → Nat
  | .TODO => 0
  | .DONE => 1

/-- Key of an optional date column under an ascending sort with polars'
default `nulls_last=False`: null sorts before every concrete date, and
concrete dates sort chronologically. -/
def dateAscKey : Option Date → List Nat
  | none => [0, 0, 0, 0]
  | some d => [1, d.year, d.month, d.day]

/-- The sort key of `reindex`'s `tasks.sort([...], descending=[True, True,
True, False, False])`: `is_visible` desc, `is_pin` desc, `status` desc,
`scheduled` asc (nulls first), `deadline` asc (nulls first). The `id`
column is not part of the key. -/
def keyList (t : Task) : List Nat :=
  [boolDescRank t.is_visible, boolDescRank t.is_pin, statusDescRank t.status]
    ++ dateAscKey t.scheduled ++ dateAscKey t.deadline

/-- Row precedence in `reindex`'s sort. -/
def taskLE (a b : Task) : Prop :=
  lexLE (keyList a) (keyList b) = true

instance : DecidableRel taskLE := fun a b =>
  inferInstanceAs (Decidable (lexLE (keyList a) (keyList b) = true))

/-- `with_row_index("id", offset=n)`: renumber the rows `n, n+1, ...` in
list order. -/
def with_row_index (offset : Nat) : List Task → List Task
  | [] => []
  | t :: ts => { t with id := (offset : Int) } :: with_row_index (offset + 1) ts

/-- `reindex`: sort the whole collection by the five-column key, drop the
old ids and renumber from 1. The source's `sort` runs with
`maintain_order=False`, which promises only some permutation sorted by the
key; the model uses a stable insertion sort, one such permutation. -/
def reindex (tasks : List Task) : List Task :=
  with_row_index 1 (List.insertionSort taskLE tasks)

/-- Maximum of the `id` column of a non-empty collection
(`tasks["id"].max()`); 0 as a junk value on the empty collection, where
the source never evaluates it. -/
def idMax : List Task → Int
  | [] => 0
  | t :: ts => ts.foldl (fun m u => max m u.id) t.id

/-- The fresh row built by `add_task`. -/
def newTask (task_id : Int) (text : String) (now : DateTime) : Task :=
  { id := task_id, status := .TODO, desc := text, scheduled := none,
    deadline := none, created := now, is_visible := true, is_pin := false,
    done_date := none }

/-- `add_task`: load, pick `max id + 1` (or 1 on an empty collection),
append the fresh TODO row, reindex. -/
def add_task (text : String) (now : DateTime) (store : Store) : List Task :=
  let tasks := load_tasks store
  let task_id : Int := if tasks.isEmpty then 1 else idMax tasks + 1
  reindex (tasks ++ [newTask task_id text now])

/-- `pin_task`: toggle `is_pin` on the rows whose id is in `task_ids`. -/
def pin_task (task_ids : List Int) (store : Store) : List Task :=
  (load_tasks store).map fun t =>
    { t with is_pin :=
        if t.id ∈ task_ids ∧ t.is_pin = true then false
        else if t.id ∈ task_ids ∧ ¬ t.is_pin = true then true
        else t.is_pin }

/-- First `with_columns` of `mark_done`: clear `done_date` on matched DONE
rows, stamp today's date on matched TODO rows. -/
def mdDoneDate (task_ids : List Int) (today : Date) (t : Task) : Task :=
  { t with done_date :=
      if t.id ∈ task_ids ∧ t.status = Status.DONE then none
      else if t.id ∈ task_ids ∧ ¬ t.status = Status.DONE then some today
      else t.done_date }

/-- Second `with_columns` of `mark_done`: flip the status of matched rows. -/
def mdStatus (task_ids : List Int) (t : Task) : Task :=
  { t with status :=
      if t.id ∈ task_ids ∧ t.status = Status.DONE then Status.TODO
      else if t.id ∈ task_ids ∧ ¬ t.status = Status.DONE then Status.DONE
      else t.status }

/-- Third `with_columns` of `mark_done`: every row whose (already flipped)
status is not DONE is forced visible; there is no id filter in this pass. -/
def mdVisible (t : Task) : Task :=
  { t with is_visible := if ¬ t.status = Status.DONE then true else t.is_visible }

/-- `mark_done`: the three `with_columns` passes in source order. -/
def mark_done (task_ids : List Int) (today : Date) (store : Store) : List Task :=
  (((load_tasks store).map (mdDoneDate task_ids today)).map
    (mdStatus task_ids)).map mdVisible

/-- `schedule_task`: set `scheduled` on the matched rows. -/
def schedule_task (date : Date) (task_ids : List Int) (store : Store) : List Task :=
  (load_tasks store).map fun t =>
    { t with scheduled := if t.id ∈ task_ids then some date else t.scheduled }

/-- `set_deadline`: set `deadline` on the matched rows. -/
def set_deadline (date : Date) (task_ids : List Int) (store : Store) : List Task :=
  (load_tasks store).map fun t =>
    { t with deadline := if t.id ∈ task_ids then some date else t.deadline }

/-- `prune_done`: hide every DONE row, then reindex. -/
def prune_done (store : Store) : List Task :=
  reindex ((load_tasks store).map fun t =>
    { t with is_visible := if t.status = Status.DONE then false else t.is_visible })

/-- Cast of the status enum to its string representation. -/
def statusStr : Status → String
  | .DONE => "DONE"
  | .TODO => "TODO"

/-- Cast of a boolean column to its string representation. -/
def boolStr : Bool → String
  | true => "true"
  | false => "false"

/-- Decimal rendering of a natural, zero-padded to the given width. -/
def padNum (width n : Nat) : String :=
  String.mk (List.replicate (width - (toString n).length) '0') ++ toString n

/-- Cast of a `Date` cell to string: the ISO form `YYYY-MM-DD`. -/
def dateStr (d : Date) : String :=
  padNum 4 d.year ++ "-" ++ padNum 2 d.month ++ "-" ++ padNum 2 d.day

/-- Cast of a `Datetime` cell (microsecond precision) to string:
`YYYY-MM-DD HH:MM:SS.ffffff`. -/
def datetimeStr (t : DateTime) : String :=
  dateStr t.date ++ " " ++ padNum 2 t.hour ++ ":" ++ padNum 2 t.minute
    ++ ":" ++ padNum 2 t.second ++ "." ++ padNum 6 t.micro

/-- Cast of an optional date for `concat_str(..., ignore_nulls=True)`:
a null contributes nothing to the concatenation, a concrete date its ISO
form. -/
def optStr : Option Date → String
  | none => ""
  | some d => dateStr d

/-- `pl.concat_str(pl.all().cast(pl.String), ignore_nulls=True)` for one
row: every column's string representation concatenated in schema order,
nulls excluded. -/
def concatRow (t : Task) : String :=
  toString t.id ++ statusStr t.status ++ t.desc ++ optStr t.scheduled
    ++ optStr t.deadline ++ datetimeStr t.created ++ boolStr t.is_visible
    ++ boolStr t.is_pin ++ optStr t.done_date

/-- One anchored regex match. This models the fragment of the regex
dialect behind polars `str.contains` that the development exercises:
patterns built from literal characters and the metacharacter `.`, which
matches any single character. -/
def reMatchHere : List Char → List Char → Bool
  | [], _ => true
  | _ :: _, [] => false
  | p :: ps, c :: cs => (p == '.' || p == c) && reMatchHere ps cs

/-- `str.contains(pattern)`: some position of the string starts a match of
the pattern. -/
def reContains (pat : List Char) : List Char → Bool
  | [] => reMatchHere pat []
  | c :: cs => reMatchHere pat (c :: cs) || reContains pat cs

/-- Model of `str.to_lowercase()` and Python's `str.lower()`: lowercase
character by character. -/
def lowerChars (cs : List Char) : List Char :=
  cs.map Char.toLower

/-- The row predicate of `list_tasks`'s filter: the lowercased pattern is
found (as a regex) in the lowercased concatenation of the row's columns. -/
def rowMatches (loweredPat : List Char) (t : Task) : Bool :=
  reContains loweredPat (lowerChars (concatRow t).data)

/-- Display sort key when some printed row is pinned. -/
def pinnedKey (t : Task) : List Nat :=
  [boolDescRank t.is_pin, statusDescRank t.status]
    ++ dateAscKey t.scheduled ++ dateAscKey t.deadline

/-- Display sort key when no printed row is pinned. -/
def unpinnedKey (t : Task) : List Nat :=
  [statusDescRank t.status] ++ dateAscKey t.scheduled ++ dateAscKey t.deadline

/-- Row precedence of the pinned display sort. -/
def pinnedLE (a b : Task) : Prop :=
  lexLE (pinnedKey a) (pinnedKey b) = true

instance : DecidableRel pinnedLE := fun a b =>
  inferInstanceAs (Decidable (lexLE (pinnedKey a) (pinnedKey b) = true))

/-- Row precedence of the unpinned display sort. -/
def unpinnedLE (a b : Task) : Prop :=
  lexLE (unpinnedKey a) (unpinnedKey b) = true

instance : DecidableRel unpinnedLE := fun a b =>
  inferInstanceAs (Decidable (lexLE (unpinnedKey a) (unpinnedKey b) = true))

/-- The display sort of `list_tasks`: the sort columns depend on whether
any printed row is pinned. -/
def sortDisplay (tasks : List Task) : List Task :=
  if tasks.any (·.is_pin) then List.insertionSort pinnedLE tasks
  else List.insertionSort unpinnedLE tasks

/-- `list_tasks(regex)`: the rows the command prints, in print order.
Python's `if regex:` treats both an omitted and an empty pattern as "no
filter". Column projection and null rendering are display formatting and
are not modelled. -/
def list_tasks (regex : Option String) (store : Store) : List Task :=
  let tasks := load_tasks store
  let visible := tasks.filter (fun t => t.is_visible)
  let kept :=
    match regex with
    | none => visible
    | some r => if r.isEmpty then visible else visible.filter (rowMatches (lowerChars r.data))
  sortDisplay kept

/-- `dump_tasks`: print the full stored collection, hidden rows included. -/
def dump_tasks (store : Store) : List Task :=
  load_tasks store

/-- One CLI invocation. -/
inductive Cmd where
  | addC (text : String) (now : DateTime)
  | pinC (task_ids : List Int)
  | doneC (task_ids : List Int) (today : Date)
  | schedC (date : Date) (task_ids : List Int)
  | deadC (date : Date) (task_ids : List Int)
  | pruneC
  | listC (regex : Option String)
  | dumpC

/-- Run one command against the backing store: the store afterwards, and
the rows the command prints. Exactly the commands whose source calls
`save_tasks` replace the store; `list` and `dump` only print. -/
def runCmd : Cmd → Store → Store × List Task
  | .addC text now, s => (save_tasks (add_task text now s), [])
  | .pinC ids, s => (save_tasks (pin_task ids s), [])
  | .doneC ids today, s => (save_tasks (mark_done ids today s), [])
  | .schedC d ids, s => (save_tasks (schedule_task d ids s), [])
  | .deadC d ids, s => (save_tasks (set_deadline d ids s), [])
  | .pruneC, s => (save_tasks (prune_done s), [])
  | .listC r, s => (s, list_tasks r s)
  | .dumpC, s => (s, dump_tasks s)

/-- A task record without its `id` column. -/
structure Row where
  status : Status
  desc : String
  scheduled : Option Date
  deadline : Option Date
  created : DateTime
  is_visible : Bool
  is_pin : Bool
  done_date : Option Date
deriving DecidableEq

/-- Forget the `id` column of a row. -/
def stripId (t : Task) : Row :=
  { status := t.status, desc := t.desc, scheduled := t.scheduled,
    deadline := t.deadline, created := t.created, is_visible := t.is_visible,
    is_pin := t.is_pin, done_date := t.done_date }

/-- The done-date consistency invariant of the spec: `done_date` is
non-null exactly on DONE rows. -/
def doneOK (tasks : List Task) : Prop :=
  ∀ t ∈ tasks, (t.done_date ≠ none ↔ t.status = Status.DONE)

instance (tasks : List Task) : Decidable (doneOK tasks) :=
  inferInstanceAs
    (Decidable (∀ t ∈ tasks, (t.done_date ≠ none ↔ t.status = Status.DONE)))


/-! ### Order lemmas for the sort comparator -/

theorem lexLE_total : ∀ as bs : List Nat, lexLE as bs = true ∨ lexLE bs as = true
  | [], _ => Or.inl rfl
  | _ :: _, [] => Or.inr rfl
  | a :: as, b :: bs => by
    rcases Nat.lt_trichotomy a b with h | h | h
    · left
      simp [lexLE, h]
    · subst h
      rcases lexLE_total as bs with ih | ih
      · left
        simp [lexLE, ih]
      · right
        simp [lexLE, ih]
    · right
      simp [lexLE, h]

theorem lexLE_trans : ∀ as bs cs : List Nat,
    lexLE as bs = true → lexLE bs cs = true → lexLE as cs = true
  | [], _, _ => fun _ _ => rfl
  | _ :: _, [], _ => fun h _ => by simp [lexLE] at h
  | _ :: _, _ :: _, [] => fun _ h => by simp [lexLE] at h
  | a :: as, b :: bs, c :: cs => fun h1 h2 => by
    simp only [lexLE] at h1 h2 ⊢
    by_cases hab : a < b
    · by_cases hbc : b < c
      · simp [Nat.lt_trans hab hbc]
      · by_cases hbc2 : b = c
        · subst hbc2
          simp [hab]
        · simp [hbc, hbc2] at h2
    · by_cases hab2 : a = b
      · subst hab2
        by_cases hac : a < c
        · simp [hac]
        · by_cases hac2 : a = c
          · subst hac2
            simp only [Nat.lt_irrefl, if_false, if_true, eq_self_iff_true] at h1 h2 ⊢
            exact lexLE_trans as bs cs h1 h2
          · simp [hac, hac2] at h2
      · simp [hab, hab2] at h1

instance : IsTrans Task taskLE where
  trans a b c hab hbc := lexLE_trans (keyList a) (keyList b) (keyList c) hab hbc

instance : IsTotal Task taskLE where
  total a b := lexLE_total (keyList a) (keyList b)

/-! ### Facts about `with_row_index` and `reindex` -/

theorem length_with_row_index : ∀ (n : Nat) (ts : List Task),
    (with_row_index n ts).length = ts.length
  | _, [] => rfl
  | n, t :: ts => by
    simp [with_row_index, length_with_row_index (n + 1) ts]

theorem map_stripId_with_row_index : ∀ (n : Nat) (ts : List Task),
    (with_row_index n ts).map stripId = ts.map stripId
  | _, [] => rfl
  | n, t :: ts => by
    simp only [with_row_index, List.map_cons, map_stripId_with_row_index (n + 1) ts]
    rfl

theorem map_id_with_row_index : ∀ (n : Nat) (ts : List Task),
    (with_row_index n ts).map Task.id
      = (List.range ts.length).map (fun k => ((n + k : Nat) : Int))
  | _, [] => rfl
  | n, t :: ts => by
    simp only [with_row_index, List.map_cons, map_id_with_row_index (n + 1) ts,
      List.length_cons, List.range_succ_eq_map, List.map_map]
    refine List.cons_eq_cons.mpr ⟨by omega, List.map_congr_left fun k _ => ?_⟩
    simp only [Function.comp]
    omega

theorem mem_with_row_index : ∀ {b : Task} (n : Nat) (ts : List Task),
    b ∈ with_row_index n ts → ∃ a ∈ ts, ∃ m : Int, b = { a with id := m }
  | b, n, t :: ts, hb => by
    rcases List.mem_cons.mp hb with h | h
    · exact ⟨t, List.mem_cons_self t ts, (n : Int), h⟩
    · obtain ⟨a, ha, m, hm⟩ := mem_with_row_index (n + 1) ts h
      exact ⟨a, List.mem_cons_of_mem t ha, m, hm⟩

theorem taskLE_setId {a b : Task} (i j : Int) (h : taskLE a b) :
    taskLE { a with id := i } { b with id := j } := h

theorem pairwise_taskLE_with_row_index : ∀ (n : Nat) (ts : List Task),
    List.Pairwise taskLE ts → List.Pairwise taskLE (with_row_index n ts)
  | _, [], _ => List.Pairwise.nil
  | n, t :: ts, h => by
    rcases List.pairwise_cons.mp h with ⟨hhead, htail⟩
    refine List.pairwise_cons.mpr ⟨?_, pairwise_taskLE_with_row_index (n + 1) ts htail⟩
    intro b hb
    obtain ⟨a, ha, m, rfl⟩ := mem_with_row_index (n + 1) ts hb
    exact taskLE_setId _ _ (hhead a ha)

theorem reindex_sorted (ts : List Task) : List.Pairwise taskLE (reindex ts) :=
  pairwise_taskLE_with_row_index 1 _ (List.sorted_insertionSort taskLE ts)

theorem reindex_rows_perm (ts : List Task) :
    ((reindex ts).map stripId).Perm (ts.map stripId) := by
  unfold reindex
  rw [map_stripId_with_row_index]
  exact (List.perm_insertionSort taskLE ts).map stripId

theorem reindex_length (ts : List Task) : (reindex ts).length = ts.length := by
  unfold reindex
  rw [length_with_row_index, (List.perm_insertionSort taskLE ts).length_eq]

theorem reindex_map_id (ts : List Task) :
    (reindex ts).map Task.id
      = (List.range ts.length).map (fun k => ((1 + k : Nat) : Int)) := by
  unfold reindex
  rw [map_id_with_row_index, (List.perm_insertionSort taskLE ts).length_eq]

theorem reindex_ids_dense (ts : List Task) :
    ((reindex ts).map Task.id).Nodup ∧
      ∀ i : Int, i ∈ (reindex ts).map Task.id ↔ 1 ≤ i ∧ i ≤ (reindex ts).length := by
  rw [reindex_map_id, reindex_length]
  constructor
  · exact List.Nodup.map (fun a b h => by omega) (List.nodup_range ts.length)
  · intro i
    simp only [List.mem_map, List.mem_range]
    constructor
    · rintro ⟨k, hk, rfl⟩
      omega
    · rintro ⟨h1, h2⟩
      exact ⟨(i - 1).toNat, by omega, by omega⟩

/-! ### Claim-side definitions (written from the claims' wording, for the
refinement comparisons) -/

/-- Status rank as claim C1 words it: "status descending with DONE ordered
before TODO". -/
def statusClaimRank : Status → Nat
  | .DONE => 0
  | .TODO => 1

/-- Optional-date key as claim C1 words it: ascending "with nulls sorted
last". -/
def dateClaimKey : Option Date → List Nat
  | none => [1, 0, 0, 0]
  | some d => [0, d.year, d.month, d.day]

/-- The sort key claim C1 describes. -/
def claimKeyC1 (t : Task) : List Nat :=
  [boolDescRank t.is_visible, boolDescRank t.is_pin, statusClaimRank t.status]
    ++ dateClaimKey t.scheduled ++ dateClaimKey t.deadline

/-- Row precedence of the sort claim C1 describes. -/
def claimLE (a b : Task) : Prop :=
  lexLE (claimKeyC1 a) (claimKeyC1 b) = true

instance : DecidableRel claimLE := fun a b =>
  inferInstanceAs (Decidable (lexLE (claimKeyC1 a) (claimKeyC1 b) = true))

/-- A concrete timestamp for the `created` column of the test rows. -/
def epochDT : DateTime :=
  { date := { year := 1970, month := 1, day := 1 }, hour := 0, minute := 0,
    second := 0, micro := 0 }

/-- A concrete date, 2024-01-05. -/
def d5 : Date :=
  { year := 2024, month := 1, day := 5 }

/-- A concrete date, 2024-01-07. -/
def d7 : Date :=
  { year := 2024, month := 1, day := 7 }

/-- A visible unpinned TODO row with no dates. -/
def rowA : Task :=
  { id := 1, status := .TODO, desc := "a", scheduled := none, deadline := none,
    created := epochDT, is_visible := true, is_pin := false, done_date := none }

/-- A visible unpinned DONE row with no dates. -/
def rowB : Task :=
  { id := 2, status := .DONE, desc := "b", scheduled := none, deadline := none,
    created := epochDT, is_visible := true, is_pin := false, done_date := some d5 }

/-- A visible unpinned TODO row scheduled on 2024-01-05. -/
def rowC : Task :=
  { rowA with desc := "c", scheduled := some d5 }

/-- A visible unpinned TODO row with a null schedule. -/
def rowD : Task :=
  { rowA with id := 2, desc := "d" }

/-- A DONE row whose done_date (2024-01-05) differs from the current
date used below (2024-01-07). -/
def rowE : Task :=
  { id := 1, status := .DONE, desc := "e", scheduled := none, deadline := none,
    created := epochDT, is_visible := true, is_pin := false, done_date := some d5 }

/-- A hidden TODO row (id 1). -/
def rowF : Task :=
  { rowA with is_visible := false }

/-- C1, counterexample: the claim says reindex sorts with DONE before TODO
and with nulls last. On `[rowA, rowB]` (TODO vs DONE, all other key
columns equal) and on `[rowC, rowD]` (scheduled 5 vs null, all other key
columns equal) the code's output is not ordered by the claimed key: the
TODO row precedes the DONE row, and the null-scheduled row precedes the
dated one. -/
theorem c1_counterexample :
    ¬ List.Pairwise claimLE (reindex [rowA, rowB]) ∧
      ¬ List.Pairwise claimLE (reindex [rowC, rowD]) := by
  decide

/-- C1 (amended): reindex sorts the entire stored collection by
`is_visible` desc, `is_pin` desc, `status` desc where the enum order makes
TODO the larger category (so TODO rows precede DONE rows), `scheduled` asc
with nulls sorted first, `deadline` asc with nulls sorted first; the rows
themselves are preserved up to this reordering, and `id = 1, 2, 3, ...` is
reassigned in the resulting order. -/
theorem c1_reindex_sorts_and_renumbers (tasks : List Task) :
    List.Pairwise taskLE (reindex tasks) ∧
      ((reindex tasks).map stripId).Perm (tasks.map stripId) ∧
      (reindex tasks).map Task.id
        = (List.range tasks.length).map (fun k => ((1 + k : Nat) : Int)) :=
  ⟨reindex_sorted tasks, reindex_rows_perm tasks, reindex_map_id tasks⟩

/-! ### C2 -/

/-- C2: after an `add` or a `prune` completes, the id values of the stored
collection are pairwise distinct and are exactly the integers `1..N`,
where N is the number of stored tasks. -/
theorem c2_ids_exactly_one_to_n (text : String) (now : DateTime) (s1 s2 : Store) :
    (((add_task text now s1).map Task.id).Nodup ∧
      ∀ i : Int, i ∈ (add_task text now s1).map Task.id ↔
        1 ≤ i ∧ i ≤ (add_task text now s1).length) ∧
    (((prune_done s2).map Task.id).Nodup ∧
      ∀ i : Int, i ∈ (prune_done s2).map Task.id ↔
        1 ≤ i ∧ i ≤ (prune_done s2).length) :=
  ⟨reindex_ids_dense _, reindex_ids_dense _⟩

/-! ### C7 -/

/-- C7: adding to an absent or empty store is not an error and yields the
one-task collection with id 1, status TODO, the given description, no
dates, visible and unpinned. -/
theorem c7_add_to_empty_store (text : String) (now : DateTime) :
    add_task text now none
      = [{ id := 1, status := Status.TODO, desc := text, scheduled := none,
           deadline := none, created := now, is_visible := true,
           is_pin := false, done_date := none }] ∧
    add_task text now (some [])
      = [{ id := 1, status := Status.TODO, desc := text, scheduled := none,
           deadline := none, created := now, is_visible := true,
           is_pin := false, done_date := none }] :=
  ⟨rfl, rfl⟩

/-! ### C9 -/

/-- C9: running `list` (with or without a filter) or `dump` leaves the
backing store exactly as it was; only the mutating commands save. -/
theorem c9_list_dump_never_write (s : Store) (regex : Option String) :
    (runCmd (Cmd.listC regex) s).1 = s ∧ (runCmd Cmd.dumpC s).1 = s :=
  ⟨rfl, rfl⟩

/-! ### C10 -/

/-- C10: reindex changes only the id column: the multiset of rows
projected onto every column except `id` is preserved, and in particular
the number of rows is unchanged. -/
theorem c10_reindex_only_renumbers (tasks : List Task) :
    ((reindex tasks).map stripId).Perm (tasks.map stripId) ∧
      (reindex tasks).length = tasks.length :=
  ⟨reindex_rows_perm tasks, reindex_length tasks⟩

/-! ### C3 -/

theorem doneOK_reindex {tasks : List Task} (h : doneOK tasks) :
    doneOK (reindex tasks) := by
  intro t ht
  obtain ⟨a, ha, m, rfl⟩ := mem_with_row_index 1 _ ht
  exact h a ((List.perm_insertionSort taskLE tasks).subset ha)

/-- C3: each operation, run on a collection satisfying done-date
consistency, yields a collection in which `done_date` is non-null exactly
on the DONE rows. -/
theorem c3_done_date_consistency (text : String) (now : DateTime)
    (today date : Date) (task_ids : List Int) (s : Store) :
    (doneOK (load_tasks s) → doneOK (add_task text now s)) ∧
    (doneOK (load_tasks s) → doneOK (pin_task task_ids s)) ∧
    (doneOK (load_tasks s) → doneOK (mark_done task_ids today s)) ∧
    (doneOK (load_tasks s) → doneOK (schedule_task date task_ids s)) ∧
    (doneOK (load_tasks s) → doneOK (set_deadline date task_ids s)) ∧
    (doneOK (load_tasks s) → doneOK (prune_done s)) := by
  refine ⟨?_, ?_, ?_, ?_, ?_, ?_⟩
  · intro h
    apply doneOK_reindex
    intro t ht
    rcases List.mem_append.mp ht with h1 | h1
    · exact h t h1
    · rcases List.mem_singleton.mp h1 with rfl
      simp [newTask]
  · intro h t ht
    obtain ⟨a, ha, rfl⟩ := List.mem_map.mp ht
    exact h a ha
  · intro h t ht
    simp only [mark_done, List.map_map, List.mem_map] at ht
    obtain ⟨a, ha, rfl⟩ := ht
    have hda := h a ha
    by_cases hid : a.id ∈ task_ids
    · by_cases hst : a.status = Status.DONE
      · simp [Function.comp, mdDoneDate, mdStatus, mdVisible, hid, hst]
      · simp [Function.comp, mdDoneDate, mdStatus, mdVisible, hid, hst]
    · simp only [Function.comp, mdDoneDate, mdStatus, mdVisible, hid,
        false_and, if_false, ite_false]
      simpa [hid] using hda
  · intro h t ht
    obtain ⟨a, ha, rfl⟩ := List.mem_map.mp ht
    exact h a ha
  · intro h t ht
    obtain ⟨a, ha, rfl⟩ := List.mem_map.mp ht
    exact h a ha
  · intro h
    apply doneOK_reindex
    intro t ht
    obtain ⟨a, ha, rfl⟩ := List.mem_map.mp ht
    exact h a ha

/-- C3 witness: the consistency hypothesis discharged on a concrete
two-row store, for each of the six operations. -/
theorem c3_witness :
    doneOK (add_task ("x") epochDT (some [rowA, rowB])) ∧
    doneOK (pin_task [1] (some [rowA, rowB])) ∧
    doneOK (mark_done [1] d7 (some [rowA, rowB])) ∧
    doneOK (schedule_task d5 [1] (some [rowA, rowB])) ∧
    doneOK (set_deadline d5 [1] (some [rowA, rowB])) ∧
    doneOK (prune_done (some [rowA, rowB])) :=
  ⟨(c3_done_date_consistency ("x") epochDT d7 d5 [1] (some [rowA, rowB])).1 (by decide),
   (c3_done_date_consistency ("x") epochDT d7 d5 [1] (some [rowA, rowB])).2.1 (by decide),
   (c3_done_date_consistency ("x") epochDT d7 d5 [1] (some [rowA, rowB])).2.2.1 (by decide),
   (c3_done_date_consistency ("x") epochDT d7 d5 [1] (some [rowA, rowB])).2.2.2.1 (by decide),
   (c3_done_date_consistency ("x") epochDT d7 d5 [1] (some [rowA, rowB])).2.2.2.2.1 (by decide),
   (c3_done_date_consistency ("x") epochDT d7 d5 [1] (some [rowA, rowB])).2.2.2.2.2 (by decide)⟩

/-! ### C8 -/

/-- C8: an id that matches no stored task is silently a no-op for every
mutation command: dropping it from the id set does not change the result,
and no error is possible (the operations are total). -/
theorem c8_unknown_id_noop (s : Store) (task_ids : List Int) (j : Int)
    (date today : Date) (hj : j ∉ (load_tasks s).map Task.id) :
    pin_task (j :: task_ids) s = pin_task task_ids s ∧
    mark_done (j :: task_ids) today s = mark_done task_ids today s ∧
    schedule_task date (j :: task_ids) s = schedule_task date task_ids s ∧
    set_deadline date (j :: task_ids) s = set_deadline date task_ids s := by
  have hj2 : ∀ t ∈ load_tasks s, ¬ t.id = j := by
    intro t ht he
    exact hj (he ▸ List.mem_map_of_mem Task.id ht)
  refine ⟨?_, ?_, ?_, ?_⟩
  · unfold pin_task
    apply List.map_congr_left
    intro t ht
    simp [List.mem_cons, hj2 t ht]
  · unfold mark_done
    simp only [List.map_map]
    apply List.map_congr_left
    intro t ht
    simp [Function.comp, mdDoneDate, mdStatus, mdVisible, List.mem_cons, hj2 t ht]
  · unfold schedule_task
    apply List.map_congr_left
    intro t ht
    simp [List.mem_cons, hj2 t ht]
  · unfold set_deadline
    apply List.map_congr_left
    intro t ht
    simp [List.mem_cons, hj2 t ht]

/-- C8 witness: with the store holding only the task with id 1, adding the
unknown id 2 to the id set changes nothing, for all four mutations. -/
theorem c8_witness :
    pin_task (2 :: [1]) (some [rowA]) = pin_task [1] (some [rowA]) ∧
    mark_done (2 :: [1]) d7 (some [rowA]) = mark_done [1] d7 (some [rowA]) ∧
    schedule_task d5 (2 :: [1]) (some [rowA]) = schedule_task d5 [1] (some [rowA]) ∧
    set_deadline d5 (2 :: [1]) (some [rowA]) = set_deadline d5 [1] (some [rowA]) :=
  c8_unknown_id_noop (some [rowA]) [1] 2 d5 d7 (by decide)

/-! ### C4 and C5 -/

theorem mark_done_eq_map (task_ids : List Int) (today : Date) (s : Store) :
    mark_done task_ids today s
      = (load_tasks s).map
          (fun t => mdVisible (mdStatus task_ids (mdDoneDate task_ids today t))) := by
  simp [mark_done, List.map_map, Function.comp]

/-- C4, counterexample: toggling id 1 twice on 2024-01-07 leaves `rowE`
with done_date 2024-01-07, not its original 2024-01-05 — done_date is not
returned to its original value. -/
theorem c4_counterexample :
    (mark_done [1] d7 (some (mark_done [1] d7 (some [rowE])))).map Task.done_date
      ≠ [rowE].map Task.done_date := by
  decide

/-- C4 (amended): toggling the same id twice with the same current date
restores every matched task's status, and a task that was visible before
the first toggle is visible afterwards; `done_date`, however, ends as null
when the task started TODO and as the current date when it started DONE,
so it is returned to its original value only when that original value
already had this form. -/
theorem c4_toggle_twice_restores (tasks : List Task) (i : Int) (today : Date) :
    List.Forall₂
      (fun t u => t.id = i →
        u.status = t.status ∧
        u.done_date = (if t.status = Status.DONE then some today else none) ∧
        (t.is_visible = true → u.is_visible = true))
      tasks (mark_done [i] today (some (mark_done [i] today (some tasks)))) := by
  rw [mark_done_eq_map, mark_done_eq_map]
  simp only [load_tasks, List.map_map]
  refine List.forall₂_map_right_iff.mpr (List.forall₂_same.mpr ?_)
  intro t _ hid
  cases hst : t.status with
  | DONE => simp [Function.comp, mdDoneDate, mdStatus, mdVisible, hid, hst]
  | TODO => simp [Function.comp, mdDoneDate, mdStatus, mdVisible, hid, hst]

/-- C5, counterexample: with an empty id set, toggleDone still forces the
hidden TODO row visible — a task not in `ids` does not keep its
`is_visible` value. -/
theorem c5_counterexample :
    (mark_done [] d5 (some [rowF])).map Task.is_visible
      ≠ [rowF].map Task.is_visible := by
  decide

/-- C5 (amended): the forced `is_visible := true` pass of toggleDone
applies to every row whose status after the flip is TODO, whether or not
its id is in `ids`: each output row is visible unless its final status is
DONE, in which case it keeps the input visibility; a row whose id is not
in `ids` keeps its status and done_date, and keeps `is_visible` exactly
when its (unchanged) status is DONE or it was already visible. -/
theorem c5_visibility_pass (task_ids : List Int) (today : Date) (s : Store) :
    List.Forall₂
      (fun t u =>
        u.is_visible = (if u.status = Status.DONE then t.is_visible else true) ∧
        (t.id ∉ task_ids →
          u = { t with is_visible :=
                  if t.status = Status.DONE then t.is_visible else true }))
      (load_tasks s) (mark_done task_ids today s) := by
  rw [mark_done_eq_map]
  refine List.forall₂_map_right_iff.mpr (List.forall₂_same.mpr ?_)
  intro t _
  constructor
  · by_cases hid : t.id ∈ task_ids <;> cases hst : t.status <;>
      simp [mdDoneDate, mdStatus, mdVisible, hid, hst]
  · intro hid
    cases hst : t.status <;>
      simp [mdDoneDate, mdStatus, mdVisible, hid, hst]

/-! ### C6 -/

end Nullus
